import Mathlib

/-!
# linefun: the animated line and its camera

A shallow embedding of `src/main.cc`.

The vertices of the line, the clock and the movement vector are
single-precision values: `Binary32` is IEEE 754 binary32 with round to
nearest, ties to even, the infinities and NaN, and every operation of the
animation rounds to single precision (no wider intermediate results).  A
finite value is kept as an integer number of units of `2 ^ -149`, so the two
zeros are one value (a division by zero takes the sign of its numerator) and
there is one NaN.

The camera constants (the view and projection matrices) are computed over an
arbitrary linearly ordered field `K`, the reals in the theorems: their
rounding is not modelled.  The C math library and the constant pi are passed
around as a `Libm K`.

The calls into GLFW and OpenGL are recorded as a list of `GlCall`s; what the
window system delivers to the program in one frame is a `FrameInput`.
-/

namespace Linefun

/-! ## Constants -/

/-- Source: `constexpr int32_t SCREEN_WIDTH = 1024;` -/
def SCREEN_WIDTH : Int := 1024

/-- Source: `constexpr int32_t SCREEN_HEIGHT = 800;` -/
def SCREEN_HEIGHT : Int := 800

/-- GLFW: `#define GLFW_KEY_ESCAPE 256`. -/
def GLFW_KEY_ESCAPE : Int := 256

/-- GLFW: `#define GLFW_PRESS 1`. -/
def GLFW_PRESS : Int := 1

/-- The functions of the C math library the program uses, and the constant pi
that `glm::radians` multiplies by. -/
structure Libm (K : Type) where
  tanf : K → K
  sqrt : K → K
  pi : K

/-! ## Vectors and matrices (glm) -/

/-- The type `glm::vec3`. -/
@[ext]
structure Vec3 (K : Type) where
  x : K
  y : K
  z : K
  deriving DecidableEq

/-- The type `glm::vec4`. -/
structure Vec4 (K : Type) where
  x : K
  y : K
  z : K
  w : K

/-- The type `glm::mat4`, column major: `c0 .. c3` are `m[0] .. m[3]`. -/
structure Mat4 (K : Type) where
  c0 : Vec4 K
  c1 : Vec4 K
  c2 : Vec4 K
  c3 : Vec4 K

/-! ## Single-precision floating point -/

/-- One step of the binary search for the position of the leading bit. -/
def log2Step (i : Nat) (p : Nat × Nat) : Nat × Nat :=
  if 2 ^ i ≤ p.1 then (p.1 / 2 ^ i, p.2 + i) else p

/-- The position of the leading bit of `n`, for `n` below `2 ^ 384`. -/
def ilog2 (n : Nat) : Nat :=
  (log2Step 1 (log2Step 2 (log2Step 4 (log2Step 8 (log2Step 16 (log2Step 32
    (log2Step 64 (log2Step 128 (log2Step 128 (n, 0)))))))))).2

/-- The fraction `num / den` rounded to the nearest integer, ties to even. -/
def roundNearestEven (num den : Nat) : Nat :=
  if 2 * (num % den) < den then num / den
  else if den < 2 * (num % den) then num / den + 1
  else if num / den % 2 = 0 then num / den
  else num / den + 1

/-- The fraction `num / den` rounded to 24 significant bits. -/
def roundMag (num den : Nat) : Nat :=
  roundNearestEven num (den * 2 ^ (ilog2 (num / den) - 23)) * 2 ^ (ilog2 (num / den) - 23)

/-- The first magnitude too large for a finite value: `2 ^ 128`, in units of
`2 ^ -149`. -/
def overflowBound : Nat := 2 ^ 128 * 2 ^ 149

/-- Whether the magnitude `a`, in units of `2 ^ -149`, is that of a finite value. -/
def isFloatMag (a : Nat) : Bool :=
  decide (a < overflowBound) && decide (a % 2 ^ (ilog2 a - 23) = 0)

/-! ### The values -/

/-- A single-precision value before the check that it is one: a finite value
`n * 2 ^ -149`, an infinity or NaN.  The two zeros are one value. -/
inductive Raw32
  | fin (n : Int)
  | inf (negative : Bool)
  | nan
  deriving DecidableEq, Repr

/-- The fraction `num / den`, in units of `2 ^ -149` and with the given sign,
rounded to the nearest single-precision value, ties to even. -/
def Raw32.round (negative : Bool) (num den : Nat) : Raw32 :=
  if overflowBound ≤ num / den then Raw32.inf negative
  else if overflowBound ≤ roundMag num den then Raw32.inf negative
  else Raw32.fin (if negative then -(roundMag num den : Int) else (roundMag num den : Int))

/-- Whether a raw value is a single-precision value. -/
def Raw32.valid : Raw32 → Bool
  | Raw32.fin n => isFloatMag n.natAbs
  | _ => true

/-- Rounding an exact integer number of units. -/
def Raw32.roundUnits (n : Int) : Raw32 := Raw32.round (decide (n < 0)) n.natAbs 1

/-- Negation. -/
def Raw32.neg : Raw32 → Raw32
  | Raw32.fin n => Raw32.fin (-n)
  | Raw32.inf s => Raw32.inf (!s)
  | Raw32.nan => Raw32.nan

/-- Addition, rounded. -/
def Raw32.add : Raw32 → Raw32 → Raw32
  | Raw32.fin a, Raw32.fin b => Raw32.roundUnits (a + b)
  | Raw32.fin _, Raw32.inf t => Raw32.inf t
  | Raw32.inf s, Raw32.fin _ => Raw32.inf s
  | Raw32.inf s, Raw32.inf t => if s = t then Raw32.inf s else Raw32.nan
  | Raw32.nan, _ => Raw32.nan
  | _, Raw32.nan => Raw32.nan

/-- Multiplication, rounded. -/
def Raw32.mul : Raw32 → Raw32 → Raw32
  | Raw32.fin a, Raw32.fin b =>
      Raw32.round (decide (a < 0) != decide (b < 0)) (a.natAbs * b.natAbs) (2 ^ 149)
  | Raw32.fin a, Raw32.inf t => if a = 0 then Raw32.nan else Raw32.inf (decide (a < 0) != t)
  | Raw32.inf s, Raw32.fin b => if b = 0 then Raw32.nan else Raw32.inf (s != decide (b < 0))
  | Raw32.inf s, Raw32.inf t => Raw32.inf (s != t)
  | Raw32.nan, _ => Raw32.nan
  | _, Raw32.nan => Raw32.nan

/-- Division, rounded.  A zero divisor counts as plus zero. -/
def Raw32.div : Raw32 → Raw32 → Raw32
  | Raw32.fin a, Raw32.fin b =>
      if b = 0 then (if a = 0 then Raw32.nan else Raw32.inf (decide (a < 0)))
      else Raw32.round (decide (a < 0) != decide (b < 0)) (a.natAbs * 2 ^ 149) b.natAbs
  | Raw32.fin _, Raw32.inf _ => Raw32.fin 0
  | Raw32.inf s, Raw32.fin b => Raw32.inf (s != decide (b < 0))
  | Raw32.inf _, Raw32.inf _ => Raw32.nan
  | Raw32.nan, _ => Raw32.nan
  | _, Raw32.nan => Raw32.nan

/-- The comparison `<`; false when either side is NaN. -/
def Raw32.lt : Raw32 → Raw32 → Bool
  | Raw32.fin a, Raw32.fin b => decide (a < b)
  | Raw32.fin _, Raw32.inf t => !t
  | Raw32.inf s, Raw32.fin _ => s
  | Raw32.inf s, Raw32.inf t => s && !t
  | Raw32.nan, _ => false
  | _, Raw32.nan => false

/-- The comparison `<=`; false when either side is NaN. -/
def Raw32.le : Raw32 → Raw32 → Bool
  | Raw32.fin a, Raw32.fin b => decide (a ≤ b)
  | Raw32.fin _, Raw32.inf t => !t
  | Raw32.inf s, Raw32.fin _ => s
  | Raw32.inf s, Raw32.inf t => s || !t
  | Raw32.nan, _ => false
  | _, Raw32.nan => false

/-- A single-precision floating-point value (IEEE 754 binary32), with the two
zeros identified. -/
structure Binary32 where
  raw : Raw32
  valid : raw.valid = true
  deriving DecidableEq

namespace Binary32

/-- The value with the given raw form.  The operations below only pass
rounded results, for which the check succeeds (`raw_ofRaw`). -/
def ofRaw (r : Raw32) : Binary32 :=
  if h : r.valid = true then ⟨r, h⟩ else ⟨Raw32.nan, rfl⟩

instance : Zero Binary32 := ⟨ofRaw (Raw32.fin 0)⟩

instance : One Binary32 := ⟨ofRaw (Raw32.fin ((2 ^ 149 : Nat) : Int))⟩

instance : NatCast Binary32 := ⟨fun n => ofRaw (Raw32.round false (n * 2 ^ 149) 1)⟩

instance : IntCast Binary32 :=
  ⟨fun n => ofRaw (Raw32.round (decide (n < 0)) (n.natAbs * 2 ^ 149) 1)⟩

instance : Neg Binary32 := ⟨fun a => ofRaw a.raw.neg⟩

instance : Add Binary32 := ⟨fun a b => ofRaw (a.raw.add b.raw)⟩

instance : Sub Binary32 := ⟨fun a b => ofRaw (a.raw.add b.raw.neg)⟩

instance : Mul Binary32 := ⟨fun a b => ofRaw (a.raw.mul b.raw)⟩

instance : Div Binary32 := ⟨fun a b => ofRaw (a.raw.div b.raw)⟩

instance : LT Binary32 := ⟨fun a b => a.raw.lt b.raw = true⟩

instance : LE Binary32 := ⟨fun a b => a.raw.le b.raw = true⟩

instance (a b : Binary32) : Decidable (a < b) :=
  inferInstanceAs (Decidable (a.raw.lt b.raw = true))

instance (a b : Binary32) : Decidable (a ≤ b) :=
  inferInstanceAs (Decidable (a.raw.le b.raw = true))

/-- Whether the value is finite (neither an infinity nor NaN). -/
def isFinite (a : Binary32) : Bool :=
  match a.raw with
  | Raw32.fin _ => true
  | _ => false

/-- The exact value of a finite `a`, in units of `2 ^ -149` (0 otherwise). -/
def units (a : Binary32) : Int :=
  match a.raw with
  | Raw32.fin n => n
  | _ => 0

/-- The exact value of a finite `a`, as a rational number (0 otherwise). -/
def toRat (a : Binary32) : ℚ := (a.units : ℚ) / 2 ^ 149

end Binary32

section GlmOps

variable {K : Type} [Zero K] [One K] [Add K] [Mul K]

/-- The sum `a + b` of two `glm::vec3`. -/
def Vec3.add (a b : Vec3 K) : Vec3 K := ⟨a.x + b.x, a.y + b.y, a.z + b.z⟩

/-- The sum of two `glm::vec4`. -/
def Vec4.add (a b : Vec4 K) : Vec4 K := ⟨a.x + b.x, a.y + b.y, a.z + b.z, a.w + b.w⟩

/-- The product `v * s` of a `glm::vec4` and a scalar. -/
def Vec4.smul (v : Vec4 K) (s : K) : Vec4 K := ⟨v.x * s, v.y * s, v.z * s, v.w * s⟩

/-- The matrix `glm::mat4(1.0f)`. -/
def Mat4.identity : Mat4 K := ⟨⟨1, 0, 0, 0⟩, ⟨0, 1, 0, 0⟩, ⟨0, 0, 1, 0⟩, ⟨0, 0, 0, 1⟩⟩

/-- The product `m * v` of a `mat4` and a `vec4`. -/
def Mat4.mulVec (m : Mat4 K) (v : Vec4 K) : Vec4 K :=
  (((m.c0.smul v.x).add (m.c1.smul v.y)).add (m.c2.smul v.z)).add (m.c3.smul v.w)

/-- The product `a * b` of two `mat4`: column `j` is `a * b[j]`. -/
def Mat4.mul (a b : Mat4 K) : Mat4 K :=
  ⟨a.mulVec b.c0, a.mulVec b.c1, a.mulVec b.c2, a.mulVec b.c3⟩

/-- The function `glm::translate(m, v)`:
`Result[3] = m[0] * v[0] + m[1] * v[1] + m[2] * v[2] + m[3]`. -/
def translate (m : Mat4 K) (v : Vec3 K) : Mat4 K :=
  { m with c3 := (((m.c0.smul v.x).add (m.c1.smul v.y)).add (m.c2.smul v.z)).add m.c3 }

/-- The function `glm::scale(m, v)`: column `i < 3` is `m[i] * v[i]`. -/
def scale (m : Mat4 K) (v : Vec3 K) : Mat4 K :=
  ⟨m.c0.smul v.x, m.c1.smul v.y, m.c2.smul v.z, m.c3⟩

end GlmOps

section Glm

variable {K : Type} [LinearOrderedField K]

/-- The difference `a - b` of two `glm::vec3`. -/
def Vec3.sub (a b : Vec3 K) : Vec3 K := ⟨a.x - b.x, a.y - b.y, a.z - b.z⟩

/-- The product `v * s` of a `glm::vec3` and a scalar. -/
def Vec3.smul (v : Vec3 K) (s : K) : Vec3 K := ⟨v.x * s, v.y * s, v.z * s⟩

/-- The function `glm::dot` on `vec3`. -/
def dot (a b : Vec3 K) : K := a.x * b.x + a.y * b.y + a.z * b.z

/-- The function `glm::cross`. -/
def cross (a b : Vec3 K) : Vec3 K :=
  ⟨a.y * b.z - b.y * a.z, a.z * b.x - b.z * a.x, a.x * b.y - b.x * a.y⟩

/-- The function `glm::normalize`: `v * inversesqrt(dot(v, v))`. -/
def normalize (L : Libm K) (v : Vec3 K) : Vec3 K := v.smul (1 / L.sqrt (dot v v))

/-- The function `glm::radians`: degrees times pi / 180. -/
def radians (L : Libm K) (degrees : K) : K := degrees * (L.pi / 180)

/-- The function `glm::lookAt` (right handed). -/
def lookAt (L : Libm K) (eye center up : Vec3 K) : Mat4 K :=
  let f := normalize L (center.sub eye)
  let s := normalize L (cross f up)
  let u := cross s f
  ⟨⟨s.x, u.x, -f.x, 0⟩,
   ⟨s.y, u.y, -f.y, 0⟩,
   ⟨s.z, u.z, -f.z, 0⟩,
   ⟨-dot s eye, -dot u eye, dot f eye, 1⟩⟩

/-- The function `glm::perspective` (right handed, depth from -1 to 1). -/
def perspective (L : Libm K) (fovy aspect zNear zFar : K) : Mat4 K :=
  let tanHalfFovy := L.tanf (fovy / 2)
  ⟨⟨1 / (aspect * tanHalfFovy), 0, 0, 0⟩,
   ⟨0, 1 / tanHalfFovy, 0, 0⟩,
   ⟨0, 0, -(zFar + zNear) / (zFar - zNear), -1⟩,
   ⟨0, 0, -(2 * zFar * zNear) / (zFar - zNear), 0⟩⟩

end Glm

/-! ## The animation step -/

/-- The body of the per-vertex loop of `main` up to the wrap checks:
`movement.x = 64.0f * deltaTime / 1.0f; vert = vert + movement;` followed by
the two `if`s, in single precision.  Returns the updated `movement` and the
updated `vert`. -/
def animationStep (deltaTime : Binary32) (movement vert : Vec3 Binary32) :
    Vec3 Binary32 × Vec3 Binary32 :=
  let movement : Vec3 Binary32 := { movement with x := 64 * deltaTime / 1 }
  let vert := vert.add movement
  let vert : Vec3 Binary32 :=
    if vert.x > (SCREEN_WIDTH : Binary32) then { vert with x := 0 } else vert
  let vert : Vec3 Binary32 :=
    if vert.y > (SCREEN_HEIGHT : Binary32) then { vert with y := 0 } else vert
  (movement, vert)

/-! ## The camera and the projection -/

section Camera

variable {K : Type} [LinearOrderedField K]

/-- Source: `constexpr float fov = glm::radians(90.0f);` -/
def fov (L : Libm K) : K := radians L 90

/-- The local `zFar` of `camera`:
`(SCREEN_WIDTH / 2.0f) / tanf(fov / 2.0f)`. -/
def camera_zFar (L : Libm K) : K := ((SCREEN_WIDTH : K) / 2) / L.tanf (fov L / 2)

/-- The local `cameraPos` of `camera`. -/
def cameraPos (L : Libm K) : Vec3 K :=
  ⟨(SCREEN_WIDTH : K) / 2, (SCREEN_HEIGHT : K) / 2, camera_zFar L⟩

/-- The local `cameraFront` of `camera`. -/
def cameraFront : Vec3 K := ⟨0, 0, -1⟩

/-- The local `cameraUp` of `camera`. -/
def cameraUp : Vec3 K := ⟨0, 1, 0⟩

/-- The function `camera`: the view matrix it uploads,
`glm::lookAt(cameraPos, cameraPos + cameraFront, cameraUp)`. -/
def camera (L : Libm K) : Mat4 K :=
  lookAt L (cameraPos L) ((cameraPos L).add cameraFront) cameraUp

/-- The local `zFar` of `main`:
`(SCREEN_WIDTH / 2.0) / tanf(fov / 2.0f) + 10.0f`. -/
def main_zFar (L : Libm K) : K := ((SCREEN_WIDTH : K) / 2) / L.tanf (fov L / 2) + 10

/-- The near plane `0.1f` passed to `glm::perspective` in `main`. -/
def main_zNear : K := 1 / 10

/-- The local `projection` of `main`:
`glm::perspective(fov, (float)SCREEN_WIDTH / (float)SCREEN_HEIGHT, 0.1f, zFar)`. -/
def projection (L : Libm K) : Mat4 K :=
  perspective L (fov L) ((SCREEN_WIDTH : K) / (SCREEN_HEIGHT : K)) main_zNear (main_zFar L)

/-- The vertex shader on a point with model matrix `model`:
`gl_Position = projection * view * model * vec4(aPos, 1.0)`. -/
def vertexShader (projection view model : Mat4 K) (aPos : Vec3 K) : Vec4 K :=
  (((projection.mul view).mul model).mulVec ⟨aPos.x, aPos.y, aPos.z, 1⟩)

/-- A clip-space position lies in the normalised-device square: after the
division by `w`, both `x` and `y` are between -1 and 1. -/
def inNdcSquare (p : Vec4 K) : Prop :=
  -1 ≤ p.x / p.w ∧ p.x / p.w ≤ 1 ∧ -1 ≤ p.y / p.w ∧ p.y / p.w ≤ 1

instance (p : Vec4 K) : Decidable (inNdcSquare p) := by
  unfold inNdcSquare; infer_instance

end Camera

/-! ## The frame loop -/

/-- The names of the two camera uniforms of the shader. -/
inductive Uniform
  | view
  | projection
  deriving DecidableEq, Repr

/-- The calls into OpenGL and GLFW that the frame loop makes, in order.
`uniformMatrix4fv` is the upload of a camera matrix, `uniformModel` the upload
of the model matrix (`glUniformMatrix4fv(modelLoc, ...)`), whose entries are
single-precision values. -/
inductive GlCall (K : Type)
  | clearColor (r g b a : K)
  | clear
  | useProgram
  | uniformMatrix4fv (name : Uniform) (m : Mat4 K)
  | bindVertexArray
  | uniformModel (m : Mat4 Binary32)
  | lineWidth (width : K)
  | drawArrays (first count : Nat)
  | getError
  | swapBuffers
  | pollEvents
  | viewport (x y width height : Int)

/-- What `glfwPollEvents` can deliver to the window. -/
inductive Event
  | key (key scancode action mods : Int)
  | framebufferSize (width height : Int)
  | close
  deriving DecidableEq, Repr

/-- What the outside world feeds one iteration of the loop: the clock read by
`glfwGetTime` (as stored in the `float currentFrame`), the state of the Escape
key read by `glfwGetKey` and the events delivered by `glfwPollEvents`. -/
structure FrameInput where
  currentFrame : Binary32
  escapeKey : Int
  events : List Event

/-- The variables of `main` that live across iterations, and the close flag
of the window. -/
structure LoopState where
  lines : List (Vec3 Binary32)
  deltaTime : Binary32
  lastFrame : Binary32
  movement : Vec3 Binary32
  shouldClose : Bool

/-- What the per-vertex loop leaves behind. -/
structure VertexLoopResult (K : Type) where
  movement : Vec3 Binary32
  lines : List (Vec3 Binary32)
  calls : List (GlCall K)

/-- What one iteration of the frame loop leaves behind. -/
structure FrameResult (K : Type) where
  state : LoopState
  calls : List (GlCall K)

/-- What a run of the frame loop leaves behind: the final state, the calls
made, the number of iterations run, and whether the loop condition was seen
false (rather than the supply of inputs ending). -/
structure Run (K : Type) where
  final : LoopState
  calls : List (GlCall K)
  frames : Nat
  exited : Bool

section Events

variable {K : Type}

/-- Recognises a draw call. -/
def GlCall.isDraw : GlCall K → Bool
  | GlCall.drawArrays _ _ => true
  | _ => false

/-- The function `key_callback`; returns the close flag. -/
def key_callback (shouldClose : Bool) (key action : Int) : Bool :=
  if key = GLFW_KEY_ESCAPE ∧ action = GLFW_PRESS then true else shouldClose

/-- The function `processInput`; `escapeKey` is what `glfwGetKey` returned. -/
def processInput (shouldClose : Bool) (escapeKey : Int) : Bool :=
  if escapeKey = GLFW_PRESS then true else shouldClose

/-- The function `framebuffer_size_callback`. -/
def framebuffer_size_callback (width height : Int) : List (GlCall K) :=
  [GlCall.viewport 0 0 width height]

/-- The function `glfwPollEvents`: every event goes to its callback, and a
close request sets the close flag of the window. -/
def pollEvents : Bool → List Event → Bool × List (GlCall K)
  | shouldClose, [] => (shouldClose, [])
  | shouldClose, Event.key key _ action _ :: rest =>
      pollEvents (key_callback shouldClose key action) rest
  | shouldClose, Event.framebufferSize width height :: rest =>
      let r := pollEvents shouldClose rest
      (r.1, framebuffer_size_callback width height ++ r.2)
  | _, Event.close :: rest => pollEvents true rest

end Events

section Loop

variable {K : Type} [LinearOrderedField K]

/-- The model matrix built for a vertex:
`glm::scale(glm::translate(glm::mat4(1.0f), vert), glm::vec3(1.0, 1.0, 1.0))`,
in single precision. -/
def modelMatrix (vert : Vec3 Binary32) : Mat4 Binary32 :=
  scale (translate Mat4.identity vert) ⟨1, 1, 1⟩

/-- The calls one pass of the per-vertex loop makes once `vert` is updated:
`glUniformMatrix4fv(modelLoc, ..., model); glLineWidth(3.3f);
glDrawArrays(GL_LINES, 0, 2); glGetError();` -/
def vertexCalls (vert : Vec3 Binary32) : List (GlCall K) :=
  [GlCall.uniformModel (modelMatrix vert),
   GlCall.lineWidth (33 / 10),
   GlCall.drawArrays 0 2,
   GlCall.getError]

/-- The loop `for (auto& vert : lines)` of `main`. -/
def vertexLoop (deltaTime : Binary32) :
    Vec3 Binary32 → List (Vec3 Binary32) → VertexLoopResult K
  | movement, [] => ⟨movement, [], []⟩
  | movement, vert :: rest =>
      let a := animationStep deltaTime movement vert
      let r := vertexLoop deltaTime a.1 rest
      ⟨r.movement, a.2 :: r.lines, vertexCalls a.2 ++ r.calls⟩

/-- The calls of an iteration between `processInput` and the per-vertex loop:
`glClearColor`, `glClear`, `glUseProgram`, the upload of `projection`,
`camera(shaderProgram)` and `glBindVertexArray`. -/
def prologueCalls (L : Libm K) : List (GlCall K) :=
  [GlCall.clearColor (2 / 10) (3 / 10) (3 / 10) 1,
   GlCall.clear,
   GlCall.useProgram,
   GlCall.uniformMatrix4fv Uniform.projection (projection L),
   GlCall.uniformMatrix4fv Uniform.view (camera L),
   GlCall.bindVertexArray]

/-- The body of `while (!glfwWindowShouldClose(window))`. -/
def frame (L : Libm K) (s : LoopState) (inp : FrameInput) : FrameResult K :=
  let deltaTime := inp.currentFrame - s.lastFrame
  let closeAfterInput := processInput s.shouldClose inp.escapeKey
  let r : VertexLoopResult K := vertexLoop deltaTime s.movement s.lines
  let p : Bool × List (GlCall K) := pollEvents closeAfterInput inp.events
  ⟨⟨r.lines, deltaTime, inp.currentFrame, r.movement, p.1⟩,
   prologueCalls L ++ r.calls ++ [GlCall.swapBuffers, GlCall.pollEvents] ++ p.2⟩

/-- The loop `while (!glfwWindowShouldClose(window))`, fed one `FrameInput`
per iteration. -/
def mainLoop (L : Libm K) : LoopState → List FrameInput → Run K
  | s, [] => ⟨s, [], 0, s.shouldClose⟩
  | s, inp :: rest =>
      if s.shouldClose then ⟨s, [], 0, true⟩
      else
        let r := frame L s inp
        let q := mainLoop L r.state rest
        ⟨q.final, r.calls ++ q.calls, q.frames + 1, q.exited⟩

/-- The loop body run once per input, whatever the close flag says. -/
def runFrames (L : Libm K) : LoopState → List FrameInput → LoopState
  | s, [] => s
  | s, inp :: rest => runFrames L (frame L s inp).state rest

/-- The state of `main` on entry to the loop. -/
def initialState : LoopState :=
  ⟨[⟨0, 0, 1⟩, ⟨201 / 2, 201 / 2, 1⟩], 0, 0, ⟨1, 0, 0⟩, false⟩

end Loop

/-! ## Facts about the single-precision arithmetic -/

section FloatFacts

theorem log2Step_spec (n i B C : Nat) (p : Nat × Nat) (hB : B ≤ C + i) (hC : i ≤ C)
    (h1 : 1 ≤ p.1) (h2 : p.1 < 2 ^ B) (h3 : 2 ^ p.2 * p.1 ≤ n) (h4 : n < 2 ^ p.2 * (p.1 + 1)) :
    1 ≤ (log2Step i p).1 ∧ (log2Step i p).1 < 2 ^ C
      ∧ 2 ^ (log2Step i p).2 * (log2Step i p).1 ≤ n
      ∧ n < 2 ^ (log2Step i p).2 * ((log2Step i p).1 + 1) := by
  unfold log2Step
  have hpos : 0 < 2 ^ i := pow_pos (by norm_num) i
  split_ifs with h
  · dsimp only
    refine ⟨(Nat.one_le_div_iff hpos).2 h, ?_, ?_, ?_⟩
    · rw [Nat.div_lt_iff_lt_mul hpos, ← pow_add]
      exact lt_of_lt_of_le h2 (Nat.pow_le_pow_right (by norm_num) hB)
    · rw [pow_add, mul_assoc]
      exact le_trans (Nat.mul_le_mul_left _ (Nat.mul_div_le _ _)) h3
    · rw [pow_add, mul_assoc]
      refine lt_of_lt_of_le h4 (Nat.mul_le_mul_left _ ?_)
      have := Nat.lt_mul_div_succ p.1 hpos
      omega
  · exact ⟨h1, lt_of_lt_of_le (not_le.1 h) (Nat.pow_le_pow_right (by norm_num) hC), h3, h4⟩

theorem ilog2_spec (n : Nat) (h0 : 0 < n) (hn : n < 2 ^ (128 + 256)) :
    2 ^ ilog2 n ≤ n ∧ n < 2 ^ (ilog2 n + 1) := by
  have s0 := log2Step_spec n 128 (128 + 256) 256 (n, 0) (by omega) (by omega) h0 hn
    (by simp) (by simp)
  have s1 := log2Step_spec n 128 256 128 _ (by norm_num) (by norm_num)
    s0.1 s0.2.1 s0.2.2.1 s0.2.2.2
  have s2 := log2Step_spec n 64 128 64 _ (by norm_num) (by norm_num)
    s1.1 s1.2.1 s1.2.2.1 s1.2.2.2
  have s3 := log2Step_spec n 32 64 32 _ (by norm_num) (by norm_num)
    s2.1 s2.2.1 s2.2.2.1 s2.2.2.2
  have s4 := log2Step_spec n 16 32 16 _ (by norm_num) (by norm_num)
    s3.1 s3.2.1 s3.2.2.1 s3.2.2.2
  have s5 := log2Step_spec n 8 16 8 _ (by norm_num) (by norm_num)
    s4.1 s4.2.1 s4.2.2.1 s4.2.2.2
  have s6 := log2Step_spec n 4 8 4 _ (by norm_num) (by norm_num)
    s5.1 s5.2.1 s5.2.2.1 s5.2.2.2
  have s7 := log2Step_spec n 2 4 2 _ (by norm_num) (by norm_num)
    s6.1 s6.2.1 s6.2.2.1 s6.2.2.2
  have s8 := log2Step_spec n 1 2 1 _ (by norm_num) (by norm_num)
    s7.1 s7.2.1 s7.2.2.1 s7.2.2.2
  obtain ⟨a1, a2, a3, a4⟩ := s8
  have ha : (log2Step 1 (log2Step 2 (log2Step 4 (log2Step 8 (log2Step 16 (log2Step 32
    (log2Step 64 (log2Step 128 (log2Step 128 (n, 0)))))))))).1 = 1 := by
    norm_num at a2; omega
  rw [ha] at a3 a4
  unfold ilog2
  constructor
  · simpa using a3
  · rw [pow_succ]; simpa using a4

theorem ilog2_zero : ilog2 0 = 0 := by decide

theorem overflowBound_lt : overflowBound < 2 ^ (128 + 256) := by
  unfold overflowBound
  rw [pow_add]
  exact Nat.mul_lt_mul_of_pos_left (Nat.pow_lt_pow_right (by omega) (by omega))
    (pow_pos (by omega) 128)

/-- A magnitude with at most 24 significant bits is that of a finite value. -/
theorem isFloatMag_of_mul_pow (m e : Nat) (hm : m ≤ 2 ^ 24) (h : m * 2 ^ e < overflowBound) :
    isFloatMag (m * 2 ^ e) = true := by
  simp only [isFloatMag, Bool.and_eq_true, decide_eq_true_eq]
  refine ⟨h, ?_⟩
  rcases Nat.eq_zero_or_pos m with h0 | h0
  · simp [h0]
  have hpos : 0 < m * 2 ^ e := Nat.mul_pos h0 (pow_pos (by norm_num) e)
  obtain ⟨h1, h2⟩ := ilog2_spec _ hpos (lt_trans h overflowBound_lt)
  apply Nat.mod_eq_zero_of_dvd
  rcases lt_or_eq_of_le hm with hlt | heq
  · have h3 : 2 ^ ilog2 (m * 2 ^ e) < 2 ^ (24 + e) := by
      apply lt_of_le_of_lt h1
      rw [pow_add]
      exact Nat.mul_lt_mul_of_pos_right hlt (pow_pos (by norm_num) e)
    have h4 : ilog2 (m * 2 ^ e) < 24 + e := (Nat.pow_lt_pow_iff_right (by norm_num)).1 h3
    exact dvd_trans (pow_dvd_pow 2 (by omega)) (dvd_mul_left _ _)
  · rw [heq, ← pow_add] at h1 h2 ⊢
    have h5 : ilog2 (2 ^ (24 + e)) ≤ 24 + e := (Nat.pow_le_pow_iff_right (by norm_num)).1 h1
    exact pow_dvd_pow 2 (by omega)

theorem roundNearestEven_le (num den : Nat) : roundNearestEven num den ≤ num / den + 1 := by
  unfold roundNearestEven
  split_ifs <;> omega

/-- The result of rounding has at most 24 significant bits. -/
theorem roundMag_isFloat (num den : Nat) (hq : num / den < overflowBound)
    (h : roundMag num den < overflowBound) : isFloatMag (roundMag num den) = true := by
  apply isFloatMag_of_mul_pow _ _ _ h
  have hle := roundNearestEven_le num (den * 2 ^ (ilog2 (num / den) - 23))
  rw [← Nat.div_div_eq_div_mul] at hle
  suffices hs : num / den / 2 ^ (ilog2 (num / den) - 23) < 2 ^ 24 by omega
  rw [Nat.div_lt_iff_lt_mul (pow_pos (by norm_num) _), ← pow_add]
  rcases Nat.eq_zero_or_pos (num / den) with h0 | h0
  · rw [h0]
    exact pow_pos (by norm_num) _
  · obtain ⟨h1, h2⟩ := ilog2_spec _ h0 (lt_trans hq overflowBound_lt)
    exact lt_of_lt_of_le h2 (Nat.pow_le_pow_right (by norm_num) (by omega))

/-- Rounding leaves the magnitude of a finite value alone. -/
theorem roundMag_exact (a c : Nat) (ha : isFloatMag a = true) (hc : 0 < c) :
    roundMag (a * c) c = a := by
  simp only [isFloatMag, Bool.and_eq_true, decide_eq_true_eq] at ha
  have hd : 2 ^ (ilog2 a - 23) ∣ a := Nat.dvd_of_mod_eq_zero ha.2
  unfold roundMag roundNearestEven
  rw [Nat.mul_div_cancel _ hc, Nat.mul_comm a c, Nat.mul_mod_mul_left, ha.2,
    Nat.mul_div_mul_left _ _ hc]
  rw [if_pos (by simpa using Nat.mul_pos hc (pow_pos (by norm_num : 0 < 2) (ilog2 a - 23)))]
  exact Nat.div_mul_cancel hd

theorem Raw32.round_valid (negative : Bool) (num den : Nat) :
    (Raw32.round negative num den).valid = true := by
  unfold Raw32.round
  by_cases h1 : overflowBound ≤ num / den
  · rw [if_pos h1]
    rfl
  by_cases h2 : overflowBound ≤ roundMag num den
  · rw [if_neg h1, if_pos h2]
    rfl
  rw [if_neg h1, if_neg h2]
  have := roundMag_isFloat num den (not_le.1 h1) (not_le.1 h2)
  cases negative <;> simpa [Raw32.valid] using this

theorem Raw32.neg_valid (a : Raw32) (h : a.valid = true) : a.neg.valid = true := by
  cases a <;> simp_all [Raw32.neg, Raw32.valid]

theorem Raw32.add_valid (a b : Raw32) : (a.add b).valid = true := by
  cases a <;> cases b <;> simp only [Raw32.add, Raw32.roundUnits, Raw32.round_valid] <;>
    first | rfl | (split_ifs <;> rfl)

theorem Raw32.mul_valid (a b : Raw32) : (a.mul b).valid = true := by
  cases a <;> cases b <;> simp only [Raw32.mul, Raw32.round_valid] <;>
    first | rfl | (split_ifs <;> rfl)

theorem Raw32.div_valid (a b : Raw32) : (a.div b).valid = true := by
  cases a <;> cases b <;> simp only [Raw32.div] <;>
    first | rfl | (split_ifs <;> first | rfl | exact Raw32.round_valid _ _ _)


namespace Binary32

theorem ext_raw {a b : Binary32} (h : a.raw = b.raw) : a = b := by
  cases a; cases b; cases h; rfl

theorem raw_ofRaw (r : Raw32) (h : r.valid = true) : (ofRaw r).raw = r := by
  simp [ofRaw, h]

theorem raw_zero : (0 : Binary32).raw = Raw32.fin 0 := by decide

theorem raw_one : (1 : Binary32).raw = Raw32.fin ((2 ^ 149 : Nat) : Int) := by decide

theorem raw_add (a b : Binary32) : (a + b).raw = a.raw.add b.raw :=
  raw_ofRaw _ (Raw32.add_valid _ _)

theorem raw_mul (a b : Binary32) : (a * b).raw = a.raw.mul b.raw :=
  raw_ofRaw _ (Raw32.mul_valid _ _)

theorem raw_div (a b : Binary32) : (a / b).raw = a.raw.div b.raw :=
  raw_ofRaw _ (Raw32.div_valid _ _)

theorem lt_iff (a b : Binary32) : a < b ↔ a.raw.lt b.raw = true := Iff.rfl

theorem le_iff (a b : Binary32) : a ≤ b ↔ a.raw.le b.raw = true := Iff.rfl

end Binary32

/-- Rounding a finite magnitude gives it back, with the sign asked for. -/
theorem Raw32.round_exact (negative : Bool) (a c : Nat) (ha : isFloatMag a = true)
    (hc : 0 < c) :
    Raw32.round negative (a * c) c = Raw32.fin (if negative then -(a : Int) else (a : Int)) := by
  have hlt : a < overflowBound := by
    simp only [isFloatMag, Bool.and_eq_true, decide_eq_true_eq] at ha
    exact ha.1
  unfold Raw32.round
  rw [roundMag_exact a c ha hc, Nat.mul_div_cancel _ hc, if_neg (not_le.2 hlt),
    if_neg (not_le.2 hlt)]

theorem Raw32.roundUnits_exact (n : Int) (h : isFloatMag n.natAbs = true) :
    Raw32.roundUnits n = Raw32.fin n := by
  have := Raw32.round_exact (decide (n < 0)) n.natAbs 1 h (by norm_num)
  rw [Nat.mul_one] at this
  rw [Raw32.roundUnits, this]
  congr 1
  by_cases hn : n < 0
  · simp only [hn, decide_True, if_true]
    omega
  · simp only [hn, decide_False]
    simp only [Bool.false_eq_true, if_false]
    omega

namespace Binary32

theorem add_zero (a : Binary32) : a + 0 = a := by
  apply ext_raw
  rw [raw_add, raw_zero]
  have hv := a.valid
  cases h : a.raw with
  | fin n =>
    rw [h] at hv
    simp only [Raw32.add, Int.add_zero]
    exact Raw32.roundUnits_exact n hv
  | inf s => rfl
  | nan => rfl

theorem zero_add (a : Binary32) : 0 + a = a := by
  apply ext_raw
  rw [raw_add, raw_zero]
  have hv := a.valid
  cases h : a.raw with
  | fin n =>
    rw [h] at hv
    simp only [Raw32.add, Int.zero_add]
    exact Raw32.roundUnits_exact n hv
  | inf s => rfl
  | nan => rfl

theorem div_one (a : Binary32) : a / 1 = a := by
  apply ext_raw
  rw [raw_div, raw_one]
  have hv := a.valid
  cases h : a.raw with
  | fin n =>
    rw [h] at hv
    have h1 : ((2 ^ 149 : Nat) : Int) ≠ 0 := by positivity
    have h2 : ¬ ((2 ^ 149 : Nat) : Int) < 0 := not_lt.2 (by positivity)
    simp only [Raw32.div, if_neg h1, Int.natAbs_ofNat, h2, decide_False, Bool.bne_false]
    rw [Raw32.round_exact _ _ _ hv (by positivity)]
    congr 1
    by_cases hn : n < 0
    · simp only [hn, decide_True, if_true]
      omega
    · simp only [hn, decide_False]
      simp only [Bool.false_eq_true, if_false]
      omega
  | inf s => simp [Raw32.div]
  | nan => rfl

theorem one_mul (a : Binary32) : 1 * a = a := by
  apply ext_raw
  rw [raw_mul, raw_one]
  have hv := a.valid
  cases h : a.raw with
  | fin n =>
    rw [h] at hv
    have h2 : ¬ ((2 ^ 149 : Nat) : Int) < 0 := not_lt.2 (by positivity)
    simp only [Raw32.mul, Int.natAbs_ofNat, h2, decide_False, Bool.false_bne]
    rw [Nat.mul_comm, Raw32.round_exact _ _ _ hv (by positivity)]
    congr 1
    by_cases hn : n < 0
    · simp only [hn, decide_True, if_true]
      omega
    · simp only [hn, decide_False]
      simp only [Bool.false_eq_true, if_false]
      omega
  | inf s =>
    have h1 : ((2 ^ 149 : Nat) : Int) ≠ 0 := by positivity
    have h2 : ¬ ((2 ^ 149 : Nat) : Int) < 0 := not_lt.2 (by positivity)
    simp [Raw32.mul, h1, h2]
  | nan => rfl

theorem zero_mul (a : Binary32) (h : a.isFinite = true) : 0 * a = 0 := by
  apply ext_raw
  rw [raw_mul, raw_zero]
  cases h1 : a.raw with
  | fin n =>
    simp only [Raw32.mul, Int.natAbs_zero, Nat.zero_mul]
    have := Raw32.round_exact (decide ((0 : Int) < 0) != decide (n < 0)) 0 (2 ^ 149)
      (by decide) (by positivity)
    rw [Nat.zero_mul] at this
    rw [this]
    simp
  | inf s => simp [isFinite, h1] at h
  | nan => simp [isFinite, h1] at h

end Binary32


namespace Binary32

theorem raw_64 : (64 : Binary32).raw = Raw32.fin ((64 * 2 ^ 149 : Nat) : Int) := by decide

theorem raw_800 : (800 : Binary32).raw = Raw32.fin ((800 * 2 ^ 149 : Nat) : Int) := by decide

theorem raw_1024 : (1024 : Binary32).raw = Raw32.fin ((1024 * 2 ^ 149 : Nat) : Int) := by decide

/-- A value that is at least 0 is a non-negative finite value or plus infinity. -/
theorem zero_le_cases (a : Binary32) (h : 0 ≤ a) :
    (∃ n : Int, 0 ≤ n ∧ a.raw = Raw32.fin n) ∨ a.raw = Raw32.inf false := by
  rw [le_iff, raw_zero] at h
  cases ha : a.raw with
  | fin n =>
    rw [ha] at h
    exact Or.inl ⟨n, by simpa [Raw32.le] using h, rfl⟩
  | inf s =>
    rw [ha] at h
    cases s
    · exact Or.inr rfl
    · simp [Raw32.le] at h
  | nan =>
    rw [ha] at h
    simp [Raw32.le] at h

theorem Raw32.round_false_nonneg (num den : Nat) :
    Raw32.le (Raw32.fin 0) (Raw32.round false num den) = true := by
  unfold Raw32.round
  simp only [Bool.false_eq_true, if_false]
  split_ifs <;> simp [Raw32.le]

theorem roundUnits_nonneg (n : Int) (h : 0 ≤ n) :
    Raw32.le (Raw32.fin 0) (Raw32.roundUnits n) = true := by
  unfold Raw32.roundUnits
  rw [decide_eq_false (not_lt.2 h)]
  exact Raw32.round_false_nonneg _ _

/-- The sum of two values that are at least 0 is at least 0. -/
theorem add_nonneg (a b : Binary32) (ha : 0 ≤ a) (hb : 0 ≤ b) : 0 ≤ a + b := by
  rw [le_iff, raw_zero, raw_add]
  rcases zero_le_cases a ha with ⟨n, hn, h1⟩ | h1 <;>
    rcases zero_le_cases b hb with ⟨m, hm, h2⟩ | h2 <;> rw [h1, h2]
  · exact roundUnits_nonneg _ (by omega)
  · rfl
  · rfl
  · rfl

/-- The product of 64 and a value that is at least 0 is at least 0. -/
theorem mul_64_nonneg (a : Binary32) (ha : 0 ≤ a) : 0 ≤ 64 * a := by
  rw [le_iff, raw_zero, raw_mul, raw_64]
  have h2 : ¬ ((64 * 2 ^ 149 : Nat) : Int) < 0 := not_lt.2 (by positivity)
  have h3 : ((64 * 2 ^ 149 : Nat) : Int) ≠ 0 := by positivity
  rcases zero_le_cases a ha with ⟨n, hn, h1⟩ | h1 <;> rw [h1]
  · simp only [Raw32.mul, decide_eq_false h2, decide_eq_false (not_lt.2 hn), bne_self_eq_false]
    exact Raw32.round_false_nonneg _ _
  · simp [Raw32.mul, h3, h2, Raw32.le]

/-- What the wrap check leaves of a value that is at least 0 lies between 0 and
1024. -/
theorem wrap_bounds (d : Binary32) (h : 0 ≤ d) :
    0 ≤ (if d > 1024 then 0 else d) ∧ (if d > 1024 then 0 else d) ≤ 1024 := by
  split_ifs with hw
  · exact ⟨by decide, by decide⟩
  · refine ⟨h, ?_⟩
    rw [gt_iff_lt, lt_iff, raw_1024] at hw
    rw [le_iff, raw_1024]
    rcases zero_le_cases d h with ⟨n, hn, h1⟩ | h1 <;> rw [h1] at hw ⊢
    · simpa [Raw32.lt, Raw32.le] using hw
    · simp [Raw32.lt] at hw

/-- A value that is at most 1024 is not above 1024. -/
theorem not_gt_of_le (d c : Binary32) (h : d ≤ c) : ¬ d > c := by
  rw [gt_iff_lt, lt_iff]
  rw [le_iff] at h
  cases hd : d.raw <;> cases hc : c.raw <;> rw [hd, hc] at h <;>
    simp_all [Raw32.lt, Raw32.le]
  intro ht
  rcases h with h | h
  · exact h
  · rw [h] at ht
    cases ht

/-- A value below 0 is at most any value that is at least 0. -/
theorem le_of_lt_zero (d c : Binary32) (hc : 0 ≤ c) (h : d < 0) : d ≤ c := by
  rw [lt_iff, raw_zero] at h
  rw [le_iff]
  rcases zero_le_cases c hc with ⟨n, hn, h1⟩ | h1 <;> rw [h1] <;>
    cases hd : d.raw <;> rw [hd] at h <;> simp_all [Raw32.lt, Raw32.le]
  omega

end Binary32

end FloatFacts

/-! ## Facts about the animation step -/

section AnimationFacts

theorem SCREEN_WIDTH_cast {K : Type} [LinearOrderedField K] :
    ((SCREEN_WIDTH : Int) : K) = 1024 := by
  simp [SCREEN_WIDTH]

theorem SCREEN_HEIGHT_cast {K : Type} [LinearOrderedField K] :
    ((SCREEN_HEIGHT : Int) : K) = 800 := by
  simp [SCREEN_HEIGHT]

theorem SCREEN_WIDTH_binary32 : ((SCREEN_WIDTH : Int) : Binary32) = 1024 := by decide

theorem SCREEN_HEIGHT_binary32 : ((SCREEN_HEIGHT : Int) : Binary32) = 800 := by decide

theorem animationStep_movement (dt : Binary32) (m v : Vec3 Binary32) :
    (animationStep dt m v).1 = ⟨64 * dt, m.y, m.z⟩ := by
  simp [animationStep, Binary32.div_one]

theorem animationStep_x (dt : Binary32) (m v : Vec3 Binary32) :
    (animationStep dt m v).2.x = if v.x + 64 * dt > 1024 then 0 else v.x + 64 * dt := by
  simp only [animationStep, SCREEN_WIDTH_binary32, SCREEN_HEIGHT_binary32, Vec3.add,
    Binary32.div_one]
  split_ifs <;> rfl

theorem animationStep_y (dt : Binary32) (m v : Vec3 Binary32) :
    (animationStep dt m v).2.y = if v.y + m.y > 800 then 0 else v.y + m.y := by
  simp only [animationStep, SCREEN_WIDTH_binary32, SCREEN_HEIGHT_binary32, Vec3.add,
    Binary32.div_one]
  split_ifs <;> rfl

theorem animationStep_z (dt : Binary32) (m v : Vec3 Binary32) :
    (animationStep dt m v).2.z = v.z + m.z := by
  simp only [animationStep, SCREEN_WIDTH_binary32, SCREEN_HEIGHT_binary32, Vec3.add,
    Binary32.div_one]
  split_ifs <;> rfl

/-- The updated vertex depends on the incoming `movement` only through its
`y` and `z`: its `x` is overwritten before use. -/
theorem animationStep_vert_congr (dt : Binary32) (m n v : Vec3 Binary32) (hy : m.y = n.y)
    (hz : m.z = n.z) : (animationStep dt m v).2 = (animationStep dt n v).2 := by
  simp only [animationStep, hy, hz]

end AnimationFacts

/-! ## Facts about the frame loop -/

section LoopFacts

variable {K : Type} [LinearOrderedField K]

theorem vertexLoop_movement (dt : Binary32) (m : Vec3 Binary32) (ls : List (Vec3 Binary32)) :
    (vertexLoop dt m ls : VertexLoopResult K).movement.y = m.y
      ∧ (vertexLoop dt m ls : VertexLoopResult K).movement.z = m.z := by
  induction ls generalizing m with
  | nil => simp [vertexLoop]
  | cons v rest ih =>
    have h := ih (animationStep dt m v).1
    rw [animationStep_movement] at h
    simp only [vertexLoop]
    rw [animationStep_movement]
    exact h

theorem vertexLoop_lines (dt : Binary32) (m : Vec3 Binary32) (ls : List (Vec3 Binary32)) :
    (vertexLoop dt m ls : VertexLoopResult K).lines
      = ls.map (fun v => (animationStep dt m v).2) := by
  induction ls generalizing m with
  | nil => simp [vertexLoop]
  | cons v rest ih =>
    simp only [vertexLoop, List.map_cons, ih]
    congr 1

theorem vertexLoop_calls (dt : Binary32) (m : Vec3 Binary32) (ls : List (Vec3 Binary32)) :
    (vertexLoop dt m ls : VertexLoopResult K).calls
      = (vertexLoop dt m ls : VertexLoopResult K).lines.flatMap vertexCalls := by
  induction ls generalizing m with
  | nil => simp [vertexLoop]
  | cons v rest ih =>
    simp only [vertexLoop, List.flatMap_cons, ih]

theorem frame_lines (L : Libm K) (s : LoopState) (inp : FrameInput) :
    (frame L s inp).state.lines
      = s.lines.map (fun v => (animationStep (inp.currentFrame - s.lastFrame) s.movement v).2) := by
  simp [frame, vertexLoop_lines]

theorem frame_movement (L : Libm K) (s : LoopState) (inp : FrameInput) :
    (frame L s inp).state.movement.y = s.movement.y
      ∧ (frame L s inp).state.movement.z = s.movement.z := by
  simpa [frame] using
    (vertexLoop_movement (inp.currentFrame - s.lastFrame) s.movement s.lines :
      (vertexLoop _ _ _ : VertexLoopResult K).movement.y = _ ∧ _)

theorem frame_shouldClose (L : Libm K) (s : LoopState) (inp : FrameInput) :
    (frame L s inp).state.shouldClose
      = (pollEvents (processInput s.shouldClose inp.escapeKey) inp.events : Bool × List (GlCall K)).1 :=
  rfl

theorem frame_calls (L : Libm K) (s : LoopState) (inp : FrameInput) :
    (frame L s inp).calls
      = prologueCalls L ++ (frame L s inp).state.lines.flatMap vertexCalls
          ++ [GlCall.swapBuffers, GlCall.pollEvents]
          ++ (pollEvents (processInput s.shouldClose inp.escapeKey) inp.events).2 := by
  simp [frame, vertexLoop_calls]

end LoopFacts

section EventFacts

variable {K : Type}

/-- Once set, the close flag stays set through the rest of `glfwPollEvents`. -/
theorem pollEvents_true (evs : List Event) :
    (pollEvents true evs : Bool × List (GlCall K)).1 = true := by
  induction evs with
  | nil => rfl
  | cons e rest ih =>
    cases e with
    | key k sc a md => simpa [pollEvents, key_callback] using ih
    | framebufferSize w h => simpa [pollEvents] using ih
    | close => simpa [pollEvents] using ih

/-- An Escape press among the events sets the close flag. -/
theorem pollEvents_escape (b : Bool) (evs : List Event) (sc md : Int)
    (h : Event.key GLFW_KEY_ESCAPE sc GLFW_PRESS md ∈ evs) :
    (pollEvents b evs : Bool × List (GlCall K)).1 = true := by
  induction evs generalizing b with
  | nil => simp at h
  | cons e rest ih =>
    rcases List.mem_cons.1 h with h1 | h1
    · subst h1
      simp [pollEvents, key_callback, pollEvents_true]
    · cases e with
      | key k sc2 a md2 => simpa [pollEvents] using ih _ h1
      | framebufferSize w h2 => simpa [pollEvents] using ih _ h1
      | close => simpa [pollEvents] using ih _ h1

/-- A close request among the events sets the close flag. -/
theorem pollEvents_close (b : Bool) (evs : List Event) (h : Event.close ∈ evs) :
    (pollEvents b evs : Bool × List (GlCall K)).1 = true := by
  induction evs generalizing b with
  | nil => simp at h
  | cons e rest ih =>
    rcases List.mem_cons.1 h with h1 | h1
    · subst h1
      simp [pollEvents, pollEvents_true]
    · cases e with
      | key k sc2 a md2 => simpa [pollEvents] using ih _ h1
      | framebufferSize w h2 => simpa [pollEvents] using ih _ h1
      | close => simpa [pollEvents] using ih _ h1

theorem pollEvents_no_draw (b : Bool) (evs : List Event) :
    (pollEvents b evs : Bool × List (GlCall K)).2.countP GlCall.isDraw = 0 := by
  induction evs generalizing b with
  | nil => rfl
  | cons e rest ih =>
    cases e with
    | key k sc a md => simpa [pollEvents] using ih _
    | framebufferSize w h =>
      simpa [pollEvents, framebuffer_size_callback, GlCall.isDraw] using ih b
    | close => simpa [pollEvents] using ih _

end EventFacts

section DrawFacts

variable {K : Type} [LinearOrderedField K]

/-- For a vertex with finite coordinates the model matrix is the identity with
the vertex in its last column: no entry is rounded. -/
theorem modelMatrix_eq (v : Vec3 Binary32) (hx : v.x.isFinite = true)
    (hy : v.y.isFinite = true) (hz : v.z.isFinite = true) :
    modelMatrix v = ⟨⟨1, 0, 0, 0⟩, ⟨0, 1, 0, 0⟩, ⟨0, 0, 1, 0⟩, ⟨v.x, v.y, v.z, 1⟩⟩ := by
  have h11 : (1 : Binary32) * 1 = 1 := by decide
  have h01 : (0 : Binary32) * 1 = 0 := by decide
  have h00 : (0 : Binary32) + 0 = 0 := by decide
  simp only [modelMatrix, scale, translate, Mat4.identity, Vec4.smul, Vec4.add,
    Binary32.one_mul, Binary32.zero_mul _ hx, Binary32.zero_mul _ hy, Binary32.zero_mul _ hz,
    Binary32.add_zero, Binary32.zero_add, h11, h01, h00]

theorem flatMap_vertexCalls_draws (ls : List (Vec3 Binary32)) :
    (ls.flatMap (vertexCalls : Vec3 Binary32 → List (GlCall K))).countP GlCall.isDraw
      = ls.length := by
  induction ls with
  | nil => rfl
  | cons v rest ih =>
    simp only [List.flatMap_cons, List.countP_append, ih, List.length_cons]
    simp [vertexCalls, GlCall.isDraw, List.countP_cons]
    omega

theorem frame_draws (L : Libm K) (s : LoopState) (inp : FrameInput) :
    (frame L s inp).calls.countP GlCall.isDraw = s.lines.length := by
  rw [frame_calls]
  simp only [List.countP_append, flatMap_vertexCalls_draws, pollEvents_no_draw, frame_lines,
    List.length_map]
  simp [prologueCalls, GlCall.isDraw, List.countP_cons]

theorem runFrames_length (L : Libm K) (s : LoopState) (inps : List FrameInput) :
    (runFrames L s inps).lines.length = s.lines.length := by
  induction inps generalizing s with
  | nil => rfl
  | cons inp rest ih => simp [runFrames, ih, frame_lines]

end DrawFacts

/-! ## Facts about exact single-precision operations -/

section GridFacts

namespace Binary32

theorem raw_of_isFinite (a : Binary32) (h : a.isFinite = true) : a.raw = Raw32.fin a.units := by
  cases ha : a.raw <;> simp_all [isFinite, units]

theorem isFinite_of_raw (a : Binary32) (n : Int) (h : a.raw = Raw32.fin n) :
    a.isFinite = true ∧ a.units = n := by
  simp [isFinite, units, h]

theorem le_iff_units (a b : Binary32) (ha : a.isFinite = true) (hb : b.isFinite = true) :
    a ≤ b ↔ a.units ≤ b.units := by
  rw [le_iff, raw_of_isFinite a ha, raw_of_isFinite b hb]
  simp [Raw32.le]

theorem raw_add_exact (a b : Binary32) (ha : a.isFinite = true) (hb : b.isFinite = true)
    (hf : isFloatMag (a.units + b.units).natAbs = true) :
    (a + b).raw = Raw32.fin (a.units + b.units) := by
  rw [raw_add, raw_of_isFinite a ha, raw_of_isFinite b hb]
  exact Raw32.roundUnits_exact _ hf

theorem raw_mul_64_exact (a : Binary32) (ha : a.isFinite = true) (h0 : 0 ≤ a.units)
    (hf : isFloatMag (64 * a.units).natAbs = true) :
    (64 * a).raw = Raw32.fin (64 * a.units) := by
  rw [raw_mul, raw_64, raw_of_isFinite a ha]
  have h2 : ¬ ((64 * 2 ^ 149 : Nat) : Int) < 0 := not_lt.2 (by positivity)
  simp only [Raw32.mul, decide_eq_false h2, decide_eq_false (not_lt.2 h0), bne_self_eq_false,
    Int.natAbs_ofNat]
  have hn : (64 * a.units).natAbs = 64 * a.units.natAbs := by
    rw [Int.natAbs_mul]
    rfl
  rw [hn] at hf
  have := Raw32.round_exact false (64 * a.units.natAbs) (2 ^ 149) hf (by positivity)
  rw [show 64 * 2 ^ 149 * a.units.natAbs = 64 * a.units.natAbs * 2 ^ 149 by ring, this]
  simp only [Bool.false_eq_true, if_false]
  congr 1
  omega

end Binary32

end GridFacts

/-! ## Facts about runs of the frame loop -/

section RunFacts

variable {K : Type} [LinearOrderedField K]

/-- One frame whose `deltaTime` is at least 0 keeps both vertices of the line
on the screen in `x` and leaves their `y` and `z` alone. -/
theorem frame_keeps_bounds (L : Libm K) (s : LoopState) (inp : FrameInput)
    (hdt : 0 ≤ inp.currentFrame - s.lastFrame) (hm : s.movement.y = 0 ∧ s.movement.z = 0)
    (h : ∃ x1 x2 : Binary32, s.lines = [⟨x1, 0, 1⟩, ⟨x2, 201 / 2, 1⟩]
      ∧ 0 ≤ x1 ∧ x1 ≤ 1024 ∧ 0 ≤ x2 ∧ x2 ≤ 1024) :
    ∃ x1 x2 : Binary32, (frame L s inp).state.lines = [⟨x1, 0, 1⟩, ⟨x2, 201 / 2, 1⟩]
      ∧ 0 ≤ x1 ∧ x1 ≤ 1024 ∧ 0 ≤ x2 ∧ x2 ≤ 1024 := by
  obtain ⟨x1, x2, hl, h1, h1b, h2, h2b⟩ := h
  have hd : 0 ≤ 64 * (inp.currentFrame - s.lastFrame) := Binary32.mul_64_nonneg _ hdt
  have key : ∀ x y : Binary32, 0 ≤ x → ¬ y > 800 →
      (animationStep (inp.currentFrame - s.lastFrame) s.movement ⟨x, y, 1⟩).2
          = ⟨(animationStep (inp.currentFrame - s.lastFrame) s.movement ⟨x, y, 1⟩).2.x, y, 1⟩
        ∧ 0 ≤ (animationStep (inp.currentFrame - s.lastFrame) s.movement ⟨x, y, 1⟩).2.x
        ∧ (animationStep (inp.currentFrame - s.lastFrame) s.movement ⟨x, y, 1⟩).2.x ≤ 1024 := by
    intro x y hx hy
    refine ⟨?_, ?_, ?_⟩
    · ext
      · rfl
      · rw [animationStep_y, hm.1]
        simp only [Binary32.add_zero]
        rw [if_neg hy]
      · rw [animationStep_z, hm.2]
        simp only [Binary32.add_zero]
    · rw [animationStep_x]
      exact (Binary32.wrap_bounds _ (Binary32.add_nonneg _ _ hx hd)).1
    · rw [animationStep_x]
      exact (Binary32.wrap_bounds _ (Binary32.add_nonneg _ _ hx hd)).2
  obtain ⟨e1, p1, q1⟩ := key x1 0 h1 (by decide)
  obtain ⟨e2, p2, q2⟩ := key x2 (201 / 2) h2 (by decide)
  refine ⟨_, _, ?_, p1, q1, p2, q2⟩
  rw [frame_lines, hl, List.map_cons, List.map_cons, List.map_nil, ← e1, ← e2]

theorem runFrames_keeps_bounds (L : Libm K) (inps : List FrameInput) (s : LoopState)
    (hc : List.Chain (fun a b : Binary32 => 0 ≤ b - a) s.lastFrame
      (inps.map FrameInput.currentFrame))
    (hm : s.movement.y = 0 ∧ s.movement.z = 0)
    (h : ∃ x1 x2 : Binary32, s.lines = [⟨x1, 0, 1⟩, ⟨x2, 201 / 2, 1⟩]
      ∧ 0 ≤ x1 ∧ x1 ≤ 1024 ∧ 0 ≤ x2 ∧ x2 ≤ 1024) :
    ∃ x1 x2 : Binary32, (runFrames L s inps).lines = [⟨x1, 0, 1⟩, ⟨x2, 201 / 2, 1⟩]
      ∧ 0 ≤ x1 ∧ x1 ≤ 1024 ∧ 0 ≤ x2 ∧ x2 ≤ 1024 := by
  induction inps generalizing s with
  | nil => exact h
  | cons inp rest ih =>
    rw [List.map_cons, List.chain_cons] at hc
    exact ih (frame L s inp).state hc.2
      (by rw [(frame_movement L s inp).1, (frame_movement L s inp).2]; exact hm)
      (frame_keeps_bounds L s inp hc.1 hm h)

theorem mainLoop_keeps_bounds (L : Libm K) (inps : List FrameInput) (s : LoopState)
    (hc : List.Chain (fun a b : Binary32 => 0 ≤ b - a) s.lastFrame
      (inps.map FrameInput.currentFrame))
    (hm : s.movement.y = 0 ∧ s.movement.z = 0)
    (h : ∃ x1 x2 : Binary32, s.lines = [⟨x1, 0, 1⟩, ⟨x2, 201 / 2, 1⟩]
      ∧ 0 ≤ x1 ∧ x1 ≤ 1024 ∧ 0 ≤ x2 ∧ x2 ≤ 1024) :
    ∃ x1 x2 : Binary32, (mainLoop L s inps).final.lines = [⟨x1, 0, 1⟩, ⟨x2, 201 / 2, 1⟩]
      ∧ 0 ≤ x1 ∧ x1 ≤ 1024 ∧ 0 ≤ x2 ∧ x2 ≤ 1024 := by
  induction inps generalizing s with
  | nil => exact h
  | cons inp rest ih =>
    rw [List.map_cons, List.chain_cons] at hc
    rw [mainLoop]
    split_ifs
    · exact h
    · exact ih (frame L s inp).state hc.2
        (by rw [(frame_movement L s inp).1, (frame_movement L s inp).2]; exact hm)
        (frame_keeps_bounds L s inp hc.1 hm h)

end RunFacts

/-! ## Facts about runs on the dyadic grid -/

section GridRunFacts

variable {K : Type} [LinearOrderedField K]

end GridRunFacts

/-! ## The animation step: displacement and wrap -/

section StepClaims

variable {K : Type} [LinearOrderedField K]

/-- C1, as stated, fails: the step does not add 64 * deltaTime exactly.  From the
initial second vertex (100.5, 100.5, 1) with deltaTime 0.1f (the value
13421773 / 2^27) the new x is 14011597 / 2^17 = 106.90000152587890625, not
the exact sum 100.5 + 64 * 0.1f = 106.900000095367431640625: the sum is
rounded to single precision. -/
theorem animationStep_rounds :
    (0 : Binary32) ≤ 1 / 10
      ∧ (201 / 2 : Binary32).toRat = 201 / 2
      ∧ (1 / 10 : Binary32).toRat = 13421773 / 134217728
      ∧ (animationStep (1 / 10) ⟨64 * (1 / 10), 0, 0⟩ ⟨201 / 2, 201 / 2, 1⟩).2.x.toRat
          = 14011597 / 131072
      ∧ (animationStep (1 / 10) ⟨64 * (1 / 10), 0, 0⟩ ⟨201 / 2, 201 / 2, 1⟩).2.x.toRat
          ≠ (201 / 2 : Binary32).toRat + 64 * (1 / 10 : Binary32).toRat := by
  have h1 : (201 / 2 : Binary32).units = ((201 * 2 ^ 148 : Nat) : Int) := by decide
  have h2 : (1 / 10 : Binary32).units = ((13421773 * 2 ^ 122 : Nat) : Int) := by decide
  have h3 : (animationStep (1 / 10) ⟨64 * (1 / 10), 0, 0⟩ ⟨201 / 2, 201 / 2, 1⟩).2.x.units
      = ((14011597 * 2 ^ 132 : Nat) : Int) := by decide
  refine ⟨by decide, ?_, ?_, ?_, ?_⟩
  · rw [Binary32.toRat, h1]
    norm_num
  · rw [Binary32.toRat, h2]
    norm_num
  · rw [Binary32.toRat, h3]
    norm_num
  · rw [Binary32.toRat, Binary32.toRat, Binary32.toRat, h1, h2, h3]
    norm_num

/-- C1, amended: for every deltaTime at least 0 and every vertex (x, y, z), with
a movement vector whose y and z are 0, the animation step yields a vertex
whose x is the single-precision sum of x and the single-precision product
64 * deltaTime (a displacement that is at least 0), unless that sum exceeds
1024, when it is 0; whose y is unchanged unless y exceeds 800, when it is 0;
and whose z is unchanged.  The sum is exactly x + 64 * deltaTime whenever
64 * deltaTime and x + 64 * deltaTime are themselves single-precision values.
From (0, 0, 1) and (100.5, 100.5, 1) with deltaTime 0.5, where nothing is
rounded, the result is (32, 0, 1) and (132.5, 100.5, 1). -/
theorem animationStep_displaces (dt mx x y z : Binary32) (hdt : 0 ≤ dt) :
    0 ≤ 64 * dt
      ∧ (animationStep dt ⟨mx, 0, 0⟩ ⟨x, y, z⟩).2.x
          = (if x + 64 * dt > 1024 then 0 else x + 64 * dt)
      ∧ (animationStep dt ⟨mx, 0, 0⟩ ⟨x, y, z⟩).2.y = (if y > 800 then 0 else y)
      ∧ (animationStep dt ⟨mx, 0, 0⟩ ⟨x, y, z⟩).2.z = z
      ∧ (x.isFinite = true → dt.isFinite = true →
          isFloatMag (64 * dt.units).natAbs = true →
          isFloatMag (x.units + 64 * dt.units).natAbs = true →
          (x + 64 * dt).toRat = x.toRat + 64 * dt.toRat)
      ∧ (vertexLoop (1 / 2) ⟨1, 0, 0⟩ [⟨0, 0, 1⟩, ⟨201 / 2, 201 / 2, 1⟩] :
            VertexLoopResult K).lines
          = [⟨32, 0, 1⟩, ⟨265 / 2, 201 / 2, 1⟩] := by
  refine ⟨Binary32.mul_64_nonneg dt hdt, ?_, ?_, ?_, ?_, ?_⟩
  · rw [animationStep_x]
  · rw [animationStep_y]
    simp only [Binary32.add_zero]
  · rw [animationStep_z]
    simp only [Binary32.add_zero]
  · intro hx hd h1 h2
    have h0 : 0 ≤ dt.units := by
      have := (Binary32.le_iff_units 0 dt (by decide) hd).1 hdt
      rwa [show (0 : Binary32).units = 0 by decide] at this
    have hm := Binary32.raw_mul_64_exact dt hd h0 h1
    obtain ⟨hmf, hmu⟩ := Binary32.isFinite_of_raw _ _ hm
    have hs := Binary32.raw_add_exact x (64 * dt) hx hmf (by rw [hmu]; exact h2)
    rw [hmu] at hs
    rw [Binary32.toRat, (Binary32.isFinite_of_raw _ _ hs).2, Binary32.toRat, Binary32.toRat]
    push_cast
    ring
  · rw [vertexLoop_lines]
    decide

/-- Witness for C1: deltaTime 0.5 on the vertex (100.5, 100.5, 1). -/
theorem animationStep_displaces_witness :
    (0 : Binary32) ≤ 1 / 2
      ∧ (animationStep (1 / 2) ⟨1, 0, 0⟩ ⟨201 / 2, 201 / 2, 1⟩).2.x
          = (if (201 / 2 : Binary32) + 64 * (1 / 2) > 1024 then 0 else 201 / 2 + 64 * (1 / 2))
      ∧ ((201 / 2 : Binary32) + 64 * (1 / 2)).toRat
          = (201 / 2 : Binary32).toRat + 64 * (1 / 2 : Binary32).toRat
      ∧ (vertexLoop (1 / 2) ⟨1, 0, 0⟩ [⟨0, 0, 1⟩, ⟨201 / 2, 201 / 2, 1⟩] :
            VertexLoopResult ℚ).lines
          = [⟨32, 0, 1⟩, ⟨265 / 2, 201 / 2, 1⟩] :=
  ⟨by decide,
   (animationStep_displaces (K := ℚ) (1 / 2) 1 (201 / 2) (201 / 2) 1 (by decide)).2.1,
   (animationStep_displaces (K := ℚ) (1 / 2) 1 (201 / 2) (201 / 2) 1 (by decide)).2.2.2.2.1
     (by decide) (by decide) (by decide) (by decide),
   (animationStep_displaces (K := ℚ) (1 / 2) 1 (201 / 2) (201 / 2) 1 (by decide)).2.2.2.2.2⟩

/-- C2, as stated, fails: from the initial second vertex (100.5, 100.5, 1) with
deltaTime 15130625 / 2^20 = 14.42968845367431640625 the exact value of
x + 64 * deltaTime is 1024 + 2^-14, above SCREEN_WIDTH, but the
single-precision sum rounds to 1024, the check `vert.x > SCREEN_WIDTH` is
false and x after the step is 1024, not 0. -/
theorem animationStep_rounds_to_width :
    (15130625 / 1048576 : Binary32).toRat = 15130625 / 1048576
      ∧ (201 / 2 : Binary32).toRat + 64 * (15130625 / 1048576 : Binary32).toRat > 1024
      ∧ (animationStep (15130625 / 1048576) ⟨64 * (15130625 / 1048576), 0, 0⟩
            ⟨201 / 2, 201 / 2, 1⟩).2.x = 1024
      ∧ (1024 : Binary32) ≠ 0 := by
  have h1 : (201 / 2 : Binary32).units = ((201 * 2 ^ 148 : Nat) : Int) := by decide
  have h2 : (15130625 / 1048576 : Binary32).units = ((15130625 * 2 ^ 129 : Nat) : Int) := by
    decide
  refine ⟨?_, ?_, by decide, by decide⟩
  · rw [Binary32.toRat, h2]
    norm_num
  · rw [Binary32.toRat, Binary32.toRat, h1, h2]
    norm_num

/-- C2, amended: the wrap rule, per axis, on the values the code computes.  For
every deltaTime, movement vector and vertex: if the single-precision sum of x
and 64 * deltaTime exceeds SCREEN_WIDTH (1024) then x after the step is 0,
whatever y is; if the single-precision sum of y and the movement's y exceeds
SCREEN_HEIGHT (800) then y after the step is 0, whatever x is. -/
theorem animationStep_wraps (dt : Binary32) (m v : Vec3 Binary32) :
    (v.x + 64 * dt > 1024 → (animationStep dt m v).2.x = 0)
      ∧ (v.y + m.y > 800 → (animationStep dt m v).2.y = 0) := by
  constructor
  · intro h
    rw [animationStep_x, if_pos h]
  · intro h
    rw [animationStep_y, if_pos h]

/-- Witness for C2: the vertex (1000, 900, 1) with deltaTime 1 wraps on both
axes. -/
theorem animationStep_wraps_witness :
    (animationStep 1 ⟨1, 0, 0⟩ ⟨1000, 900, 1⟩).2.x = 0
      ∧ (animationStep 1 ⟨1, 0, 0⟩ ⟨1000, 900, 1⟩).2.y = 0 :=
  ⟨(animationStep_wraps 1 ⟨1, 0, 0⟩ ⟨1000, 900, 1⟩).1 (by decide),
   (animationStep_wraps 1 ⟨1, 0, 0⟩ ⟨1000, 900, 1⟩).2 (by decide)⟩

/-- C7: the wrap checks only the upper bound, strictly.  With a movement
vector whose y and z are 0: if the displaced x is at most SCREEN_WIDTH (1024)
the step leaves x at the displaced value, and if y is at most SCREEN_HEIGHT
(800) the step leaves y as it is; in particular a negative coordinate stays
negative. -/
theorem animationStep_upper_bound_only (dt mx : Binary32) (v : Vec3 Binary32) :
    (v.x + 64 * dt ≤ 1024 → (animationStep dt ⟨mx, 0, 0⟩ v).2.x = v.x + 64 * dt)
      ∧ (v.y ≤ 800 → (animationStep dt ⟨mx, 0, 0⟩ v).2.y = v.y)
      ∧ (v.x + 64 * dt < 0 → (animationStep dt ⟨mx, 0, 0⟩ v).2.x < 0)
      ∧ (v.y < 0 → (animationStep dt ⟨mx, 0, 0⟩ v).2.y < 0) := by
  have hx : v.x + 64 * dt ≤ 1024 → (animationStep dt ⟨mx, 0, 0⟩ v).2.x = v.x + 64 * dt := by
    intro h
    rw [animationStep_x, if_neg (Binary32.not_gt_of_le _ _ h)]
  have hy : v.y ≤ 800 → (animationStep dt ⟨mx, 0, 0⟩ v).2.y = v.y := by
    intro h
    rw [animationStep_y]
    simp only [Binary32.add_zero]
    rw [if_neg (Binary32.not_gt_of_le _ _ h)]
  refine ⟨hx, hy, ?_, ?_⟩
  · intro h
    rw [hx (Binary32.le_of_lt_zero _ _ (by decide) h)]
    exact h
  · intro h
    rw [hy (Binary32.le_of_lt_zero _ _ (by decide) h)]
    exact h

/-- Witness for C7: the vertex (1024, 800, 1) with deltaTime 0 stays where it
is, and the vertex (-5, -7, 1) stays negative. -/
theorem animationStep_upper_bound_only_witness :
    (animationStep 0 ⟨1, 0, 0⟩ ⟨1024, 800, 1⟩).2.x = 1024 + 64 * 0
      ∧ (animationStep 0 ⟨1, 0, 0⟩ ⟨1024, 800, 1⟩).2.y = 800
      ∧ (animationStep 0 ⟨1, 0, 0⟩ ⟨-5, -7, 1⟩).2.x < 0
      ∧ (animationStep 0 ⟨1, 0, 0⟩ ⟨-5, -7, 1⟩).2.y < 0 :=
  ⟨(animationStep_upper_bound_only 0 1 ⟨1024, 800, 1⟩).1 (by decide),
   (animationStep_upper_bound_only 0 1 ⟨1024, 800, 1⟩).2.1 (by decide),
   (animationStep_upper_bound_only 0 1 ⟨-5, -7, 1⟩).2.2.1 (by decide),
   (animationStep_upper_bound_only 0 1 ⟨-5, -7, 1⟩).2.2.2 (by decide)⟩

end StepClaims

/-! ## The frame loop: termination and drawing -/

section FrameClaims

variable {K : Type} [LinearOrderedField K]

/-- The calls of one iteration, written out. -/
theorem frame_calls_explicit (L : Libm K) (s : LoopState) (inp : FrameInput) :
    (frame L s inp).calls
      = [GlCall.clearColor (2 / 10) (3 / 10) (3 / 10) 1,
         GlCall.clear,
         GlCall.useProgram,
         GlCall.uniformMatrix4fv Uniform.projection (projection L),
         GlCall.uniformMatrix4fv Uniform.view (camera L),
         GlCall.bindVertexArray]
        ++ (frame L s inp).state.lines.flatMap
            (fun v =>
              [GlCall.uniformModel (scale (translate Mat4.identity v) ⟨1, 1, 1⟩),
               GlCall.lineWidth (33 / 10),
               GlCall.drawArrays 0 2,
               GlCall.getError])
        ++ [GlCall.swapBuffers, GlCall.pollEvents]
        ++ (pollEvents (processInput s.shouldClose inp.escapeKey) inp.events).2 := by
  rw [frame_calls]
  rfl

/-- C6: the close flag can be set by the direct Escape poll (`processInput`),
by the key callback, or by a close request.  When an iteration that starts
with the flag clear sees any of the three, the flag is set at its end, the
iteration still runs in full (every vertex is animated; the calls are the
clear, the program and camera uploads, for each vertex the model upload and
the draw of 2 vertices, then the buffer swap and the event poll, with one
draw per vertex), and the loop exits at the next evaluation of its condition:
exactly one frame runs, whatever inputs remain. -/
theorem close_completes_frame (L : Libm K) (s : LoopState) (inp : FrameInput)
    (rest : List FrameInput) (hs : s.shouldClose = false)
    (h : inp.escapeKey = GLFW_PRESS
      ∨ (∃ sc md, Event.key GLFW_KEY_ESCAPE sc GLFW_PRESS md ∈ inp.events)
      ∨ Event.close ∈ inp.events) :
    (frame L s inp).state.shouldClose = true
      ∧ mainLoop L s (inp :: rest)
          = ⟨(frame L s inp).state, (frame L s inp).calls, 1, true⟩
      ∧ (frame L s inp).state.lines
          = s.lines.map (fun v => (animationStep (inp.currentFrame - s.lastFrame) s.movement v).2)
      ∧ (frame L s inp).calls
          = [GlCall.clearColor (2 / 10) (3 / 10) (3 / 10) 1,
             GlCall.clear,
             GlCall.useProgram,
             GlCall.uniformMatrix4fv Uniform.projection (projection L),
             GlCall.uniformMatrix4fv Uniform.view (camera L),
             GlCall.bindVertexArray]
            ++ (frame L s inp).state.lines.flatMap
                (fun v =>
                  [GlCall.uniformModel (scale (translate Mat4.identity v) ⟨1, 1, 1⟩),
                   GlCall.lineWidth (33 / 10),
                   GlCall.drawArrays 0 2,
                   GlCall.getError])
            ++ [GlCall.swapBuffers, GlCall.pollEvents]
            ++ (pollEvents (processInput s.shouldClose inp.escapeKey) inp.events).2
      ∧ (frame L s inp).calls.countP GlCall.isDraw = s.lines.length := by
  have hflag : (frame L s inp).state.shouldClose = true := by
    rw [frame_shouldClose]
    rcases h with h | ⟨sc, md, h⟩ | h
    · simp [processInput, h, pollEvents_true]
    · exact pollEvents_escape _ _ sc md h
    · exact pollEvents_close _ _ h
  refine ⟨hflag, ?_, frame_lines L s inp, frame_calls_explicit L s inp, frame_draws L s inp⟩
  cases rest with
  | nil => simp [mainLoop, hs, hflag]
  | cons i r => simp [mainLoop, hs, hflag]

/-- Witness for C6: from the initial state, a frame in which the key callback
receives an Escape press is the only frame that runs, and it draws twice. -/
theorem close_completes_frame_witness :
    (frame (⟨Real.tan, Real.sqrt, Real.pi⟩ : Libm ℝ) initialState
        ⟨1, 0, [Event.key 256 0 1 0]⟩).state.shouldClose = true
      ∧ mainLoop (⟨Real.tan, Real.sqrt, Real.pi⟩ : Libm ℝ) initialState
          [⟨1, 0, [Event.key 256 0 1 0]⟩, ⟨2, 0, []⟩]
        = ⟨(frame (⟨Real.tan, Real.sqrt, Real.pi⟩ : Libm ℝ) initialState
              ⟨1, 0, [Event.key 256 0 1 0]⟩).state,
           (frame (⟨Real.tan, Real.sqrt, Real.pi⟩ : Libm ℝ) initialState
              ⟨1, 0, [Event.key 256 0 1 0]⟩).calls, 1, true⟩
      ∧ (frame (⟨Real.tan, Real.sqrt, Real.pi⟩ : Libm ℝ) initialState
          ⟨1, 0, [Event.key 256 0 1 0]⟩).calls.countP GlCall.isDraw
        = (initialState).lines.length :=
  ⟨(close_completes_frame ⟨Real.tan, Real.sqrt, Real.pi⟩ initialState
      ⟨1, 0, [Event.key 256 0 1 0]⟩ [⟨2, 0, []⟩] rfl
      (Or.inr (Or.inl ⟨0, 0, by simp [GLFW_KEY_ESCAPE, GLFW_PRESS]⟩))).1,
   (close_completes_frame ⟨Real.tan, Real.sqrt, Real.pi⟩ initialState
      ⟨1, 0, [Event.key 256 0 1 0]⟩ [⟨2, 0, []⟩] rfl
      (Or.inr (Or.inl ⟨0, 0, by simp [GLFW_KEY_ESCAPE, GLFW_PRESS]⟩))).2.1,
   (close_completes_frame ⟨Real.tan, Real.sqrt, Real.pi⟩ initialState
      ⟨1, 0, [Event.key 256 0 1 0]⟩ [⟨2, 0, []⟩] rfl
      (Or.inr (Or.inl ⟨0, 0, by simp [GLFW_KEY_ESCAPE, GLFW_PRESS]⟩))).2.2.2.2⟩

/-- C8, as stated, fails: the first frame from the initial state issues two
draw calls, not one. -/
theorem first_frame_two_draws :
    (frame (⟨Real.tan, Real.sqrt, Real.pi⟩ : Libm ℝ) initialState ⟨0, 0, []⟩).calls.countP
        GlCall.isDraw = 2
      ∧ (frame (⟨Real.tan, Real.sqrt, Real.pi⟩ : Libm ℝ) initialState ⟨0, 0, []⟩).calls.countP
        GlCall.isDraw ≠ 1 := by
  rw [frame_draws]
  simp [initialState]

/-- C8, amended: in every iteration of the frame loop the per-vertex loop runs
once for each vertex of GeometryState, so twice per frame.  Each pass builds
one model matrix, the identity translated by the updated (post-wrap) vertex
position with unit scale (for finite coordinates: the identity with the
position in its last column), uploads it, and issues one line-draw call for
exactly 2 vertices.  The number of draw calls per frame is the number of
vertices, 2. -/
theorem frame_draws_per_vertex (L : Libm K) (inps : List FrameInput) (inp : FrameInput) :
    (frame L (runFrames L initialState inps) inp).calls
        = [GlCall.clearColor (2 / 10) (3 / 10) (3 / 10) 1,
           GlCall.clear,
           GlCall.useProgram,
           GlCall.uniformMatrix4fv Uniform.projection (projection L),
           GlCall.uniformMatrix4fv Uniform.view (camera L),
           GlCall.bindVertexArray]
          ++ (frame L (runFrames L initialState inps) inp).state.lines.flatMap
              (fun v =>
                [GlCall.uniformModel (scale (translate Mat4.identity v) ⟨1, 1, 1⟩),
                 GlCall.lineWidth (33 / 10),
                 GlCall.drawArrays 0 2,
                 GlCall.getError])
          ++ [GlCall.swapBuffers, GlCall.pollEvents]
          ++ (pollEvents (processInput (runFrames L initialState inps).shouldClose inp.escapeKey)
                inp.events).2
      ∧ (∀ v : Vec3 Binary32, v.x.isFinite = true → v.y.isFinite = true →
          v.z.isFinite = true →
          scale (translate Mat4.identity v) ⟨1, 1, 1⟩
            = ⟨⟨1, 0, 0, 0⟩, ⟨0, 1, 0, 0⟩, ⟨0, 0, 1, 0⟩, ⟨v.x, v.y, v.z, 1⟩⟩)
      ∧ (frame L (runFrames L initialState inps) inp).state.lines.length = 2
      ∧ (frame L (runFrames L initialState inps) inp).calls.countP GlCall.isDraw = 2 := by
  refine ⟨frame_calls_explicit L _ inp, fun v hx hy hz => modelMatrix_eq v hx hy hz, ?_, ?_⟩
  · rw [frame_lines, List.length_map, runFrames_length]
    rfl
  · rw [frame_draws, runFrames_length]
    rfl

/-- Witness for C8: the model matrix of the vertex (132.5, 100.5, 1). -/
theorem frame_draws_per_vertex_witness :
    scale (translate Mat4.identity (⟨265 / 2, 201 / 2, 1⟩ : Vec3 Binary32)) ⟨1, 1, 1⟩
      = ⟨⟨1, 0, 0, 0⟩, ⟨0, 1, 0, 0⟩, ⟨0, 0, 1, 0⟩, ⟨265 / 2, 201 / 2, 1, 1⟩⟩ :=
  (frame_draws_per_vertex (⟨Real.tan, Real.sqrt, Real.pi⟩ : Libm ℝ) [] ⟨1 / 2, 0, []⟩).2.1
    ⟨265 / 2, 201 / 2, 1⟩ (by decide) (by decide) (by decide)

end FrameClaims

/-! ## The frame loop: reachable states and the clock -/

section RunClaims

variable {K : Type} [LinearOrderedField K]

/-- C9: starting from the initial GeometryState [(0,0,1), (100.5,100.5,1)], for
every sequence of frames whose deltaTime (currentFrame - lastFrame, as the
code computes it) is at least 0, after the frames the sequence still has
exactly 2 vertices in the same order, each with 0 <= x <= 1024, and with y
and z at their initial values (0 and 1 for the first, 100.5 and 1 for the
second).  This holds both when every frame runs and for the loop that stops
at the close flag. -/
theorem line_stays_on_screen (L : Libm K) (inps : List FrameInput)
    (hc : List.Chain (fun a b : Binary32 => 0 ≤ b - a) 0 (inps.map FrameInput.currentFrame)) :
    (∃ x1 x2 : Binary32,
        (runFrames L initialState inps).lines = [⟨x1, 0, 1⟩, ⟨x2, 201 / 2, 1⟩]
        ∧ 0 ≤ x1 ∧ x1 ≤ 1024 ∧ 0 ≤ x2 ∧ x2 ≤ 1024)
      ∧ (∃ x1 x2 : Binary32, (mainLoop L initialState inps).final.lines
            = [⟨x1, 0, 1⟩, ⟨x2, 201 / 2, 1⟩]
          ∧ 0 ≤ x1 ∧ x1 ≤ 1024 ∧ 0 ≤ x2 ∧ x2 ≤ 1024) := by
  have h0 : ∃ x1 x2 : Binary32, initialState.lines = [⟨x1, 0, 1⟩, ⟨x2, 201 / 2, 1⟩]
      ∧ 0 ≤ x1 ∧ x1 ≤ 1024 ∧ 0 ≤ x2 ∧ x2 ≤ 1024 :=
    ⟨0, 201 / 2, rfl, by decide, by decide, by decide, by decide⟩
  exact ⟨runFrames_keeps_bounds L inps initialState hc ⟨rfl, rfl⟩ h0,
    mainLoop_keeps_bounds L inps initialState hc ⟨rfl, rfl⟩ h0⟩

/-- Witness for C9: frames at times 0.5, 20 and 20. -/
theorem line_stays_on_screen_witness :
    (∃ x1 x2 : Binary32, (runFrames (⟨Real.tan, Real.sqrt, Real.pi⟩ : Libm ℝ) initialState
          [⟨1 / 2, 0, []⟩, ⟨20, 0, []⟩, ⟨20, 0, []⟩]).lines = [⟨x1, 0, 1⟩, ⟨x2, 201 / 2, 1⟩]
        ∧ 0 ≤ x1 ∧ x1 ≤ 1024 ∧ 0 ≤ x2 ∧ x2 ≤ 1024)
      ∧ (∃ x1 x2 : Binary32, (mainLoop (⟨Real.tan, Real.sqrt, Real.pi⟩ : Libm ℝ) initialState
          [⟨1 / 2, 0, []⟩, ⟨20, 0, []⟩, ⟨20, 0, []⟩]).final.lines
            = [⟨x1, 0, 1⟩, ⟨x2, 201 / 2, 1⟩]
          ∧ 0 ≤ x1 ∧ x1 ≤ 1024 ∧ 0 ≤ x2 ∧ x2 ≤ 1024) :=
  line_stays_on_screen ⟨Real.tan, Real.sqrt, Real.pi⟩
    [⟨1 / 2, 0, []⟩, ⟨20, 0, []⟩, ⟨20, 0, []⟩]
    (List.Chain.cons (by decide)
      (List.Chain.cons (by decide) (List.Chain.cons (by decide) List.Chain.nil)))

end RunClaims

/-! ## The frame loop: the clock -/

section ClockClaims

variable {K : Type} [LinearOrderedField K]

end ClockClaims

/-! ## The camera and the projection, over the reals -/

section CameraClaims

/-- Half of `fov` is pi / 4, whose tangent is 1. -/
theorem tan_half_fov :
    Real.tan (fov (⟨Real.tan, Real.sqrt, Real.pi⟩ : Libm ℝ) / 2) = 1 := by
  have h : fov (⟨Real.tan, Real.sqrt, Real.pi⟩ : Libm ℝ) / 2 = Real.pi / 4 := by
    simp only [fov, radians]
    ring
  rw [h, Real.tan_pi_div_four]

theorem camera_zFar_real : camera_zFar (⟨Real.tan, Real.sqrt, Real.pi⟩ : Libm ℝ) = 512 := by
  simp only [camera_zFar, tan_half_fov, SCREEN_WIDTH_cast]
  norm_num

theorem main_zFar_real : main_zFar (⟨Real.tan, Real.sqrt, Real.pi⟩ : Libm ℝ) = 522 := by
  simp only [main_zFar, tan_half_fov, SCREEN_WIDTH_cast]
  norm_num

theorem cameraPos_real :
    cameraPos (⟨Real.tan, Real.sqrt, Real.pi⟩ : Libm ℝ) = ⟨512, 400, 512⟩ := by
  simp only [cameraPos, camera_zFar_real, SCREEN_WIDTH_cast, SCREEN_HEIGHT_cast]
  norm_num

/-- The view matrix of `camera`: a translation by minus the eye position. -/
theorem camera_real :
    camera (⟨Real.tan, Real.sqrt, Real.pi⟩ : Libm ℝ)
      = ⟨⟨1, 0, 0, 0⟩, ⟨0, 1, 0, 0⟩, ⟨0, 0, 1, 0⟩, ⟨-512, -400, -512, 1⟩⟩ := by
  simp only [camera, cameraPos_real, cameraFront, cameraUp, lookAt, normalize, cross, dot,
    Vec3.add, Vec3.sub, Vec3.smul]
  norm_num

/-- The projection matrix of `main`. -/
theorem projection_real :
    projection (⟨Real.tan, Real.sqrt, Real.pi⟩ : Libm ℝ)
      = ⟨⟨800 / 1024, 0, 0, 0⟩, ⟨0, 1, 0, 0⟩, ⟨0, 0, -5221 / 5219, -1⟩,
         ⟨0, 0, -1044 / 5219, 0⟩⟩ := by
  simp only [projection, perspective, tan_half_fov, main_zFar_real, main_zNear,
    SCREEN_WIDTH_cast, SCREEN_HEIGHT_cast]
  norm_num

/-- Where the vertex shader puts a point of the plane z = 0 (identity model
matrix). -/
theorem vertexShader_plane (x y : ℝ) :
    vertexShader (projection (⟨Real.tan, Real.sqrt, Real.pi⟩ : Libm ℝ))
        (camera (⟨Real.tan, Real.sqrt, Real.pi⟩ : Libm ℝ)) Mat4.identity ⟨x, y, 0⟩
      = ⟨800 / 1024 * (x - 512), y - 400, 5221 / 5219 * 512 - 1044 / 5219, 512⟩ := by
  simp only [vertexShader, projection_real, camera_real, Mat4.mul, Mat4.mulVec, Mat4.identity,
    Vec4.add, Vec4.smul]
  norm_num
  constructor <;> ring

/-- The part of the plane z = 0 that the view and projection matrices map
into the normalised-device square. -/
theorem inNdcSquare_plane (x y : ℝ) :
    inNdcSquare (vertexShader (projection (⟨Real.tan, Real.sqrt, Real.pi⟩ : Libm ℝ))
        (camera (⟨Real.tan, Real.sqrt, Real.pi⟩ : Libm ℝ)) Mat4.identity ⟨x, y, 0⟩)
      ↔ (-14336 / 100 ≤ x ∧ x ≤ 116736 / 100) ∧ (-112 ≤ y ∧ y ≤ 912) := by
  rw [vertexShader_plane]
  simp only [inNdcSquare]
  rw [le_div_iff₀ (by norm_num), div_le_iff₀ (by norm_num), le_div_iff₀ (by norm_num),
    div_le_iff₀ (by norm_num)]
  constructor
  · rintro ⟨h1, h2, h3, h4⟩
    exact ⟨⟨by linarith, by linarith⟩, by linarith, by linarith⟩
  · rintro ⟨⟨h1, h2⟩, h3, h4⟩
    exact ⟨by linarith, by linarith, by linarith, by linarith⟩

/-- C3: for the configured constants (SCREEN_WIDTH = 1024, SCREEN_HEIGHT = 800,
fov = 90 degrees = pi / 2) the camera distance computed in `camera` is
zFar = (1024 / 2) / tan(fov / 2) = 512; the eye passed to `lookAt` is
(512, 400, 512), the look target is the eye plus (0, 0, -1) and the up vector
is (0, 1, 0). -/
theorem camera_eye_distance :
    fov (⟨Real.tan, Real.sqrt, Real.pi⟩ : Libm ℝ) = Real.pi / 2
      ∧ camera_zFar (⟨Real.tan, Real.sqrt, Real.pi⟩ : Libm ℝ)
          = (1024 / 2) / Real.tan (fov (⟨Real.tan, Real.sqrt, Real.pi⟩ : Libm ℝ) / 2)
      ∧ camera_zFar (⟨Real.tan, Real.sqrt, Real.pi⟩ : Libm ℝ) = 512
      ∧ cameraPos (⟨Real.tan, Real.sqrt, Real.pi⟩ : Libm ℝ) = ⟨512, 400, 512⟩
      ∧ (cameraFront : Vec3 ℝ) = ⟨0, 0, -1⟩
      ∧ (cameraPos (⟨Real.tan, Real.sqrt, Real.pi⟩ : Libm ℝ)).add cameraFront
          = ⟨512, 400, 511⟩
      ∧ camera (⟨Real.tan, Real.sqrt, Real.pi⟩ : Libm ℝ)
          = lookAt ⟨Real.tan, Real.sqrt, Real.pi⟩ ⟨512, 400, 512⟩
              (Vec3.add ⟨512, 400, 512⟩ ⟨0, 0, -1⟩) ⟨0, 1, 0⟩ := by
  refine ⟨?_, ?_, camera_zFar_real, cameraPos_real, rfl, ?_, ?_⟩
  · simp only [fov, radians]
    ring
  · simp only [camera_zFar, SCREEN_WIDTH_cast]
  · rw [cameraPos_real]
    simp only [cameraFront, Vec3.add]
    norm_num
  · simp only [camera, cameraPos_real, cameraFront, cameraUp]

/-- C4 fails on the code: the point (1100, 400, 0) of the plane z = 0 lies
outside the rectangle 0 <= x <= SCREEN_WIDTH, 0 <= y <= SCREEN_HEIGHT, yet the
view and projection matrices map it into the normalised-device square. -/
theorem viewport_shows_more_than_screen :
    inNdcSquare (vertexShader (projection (⟨Real.tan, Real.sqrt, Real.pi⟩ : Libm ℝ))
        (camera (⟨Real.tan, Real.sqrt, Real.pi⟩ : Libm ℝ)) Mat4.identity ⟨1100, 400, 0⟩)
      ∧ ¬ ((0 : ℝ) ≤ 1100 ∧ (1100 : ℝ) ≤ (SCREEN_WIDTH : ℝ)
            ∧ (0 : ℝ) ≤ 400 ∧ (400 : ℝ) ≤ (SCREEN_HEIGHT : ℝ)) := by
  constructor
  · rw [inNdcSquare_plane]
    norm_num
  · rw [SCREEN_WIDTH_cast]
    norm_num

/-- C5: the projection matrix is `glm::perspective` with near plane 0.1 and far
plane (1024 / 2) / tan(fov / 2) + 10 = 522, the camera distance plus 10; its
depth row and column are built from these two planes, so that a point in
front of the eye at view-space depth d has clip-space z strictly between -w
and w exactly when d is strictly between 0.1 and 522.  Every point (x, y, 0)
of the plane z = 0 has view-space depth 512 from the eye of `camera`,
strictly between the near and far planes, and its clip-space z lies strictly
between -w and w: the plane is not clipped in depth. -/
theorem plane_within_depth (x y : ℝ) :
    (main_zNear : ℝ) = 1 / 10
      ∧ main_zFar (⟨Real.tan, Real.sqrt, Real.pi⟩ : Libm ℝ)
          = camera_zFar (⟨Real.tan, Real.sqrt, Real.pi⟩ : Libm ℝ) + 10
      ∧ main_zFar (⟨Real.tan, Real.sqrt, Real.pi⟩ : Libm ℝ) = 522
      ∧ projection (⟨Real.tan, Real.sqrt, Real.pi⟩ : Libm ℝ)
          = perspective ⟨Real.tan, Real.sqrt, Real.pi⟩ (Real.pi / 2) (1024 / 800) (1 / 10) 522
      ∧ projection (⟨Real.tan, Real.sqrt, Real.pi⟩ : Libm ℝ)
          = ⟨⟨1 / (1024 / 800), 0, 0, 0⟩,
             ⟨0, 1, 0, 0⟩,
             ⟨0, 0, -(522 + 1 / 10) / (522 - 1 / 10), -1⟩,
             ⟨0, 0, -(2 * 522 * (1 / 10)) / (522 - 1 / 10), 0⟩⟩
      ∧ (∀ d : ℝ, 0 < d →
          ((-((projection (⟨Real.tan, Real.sqrt, Real.pi⟩ : Libm ℝ)).mulVec ⟨x, y, -d, 1⟩).w
              < ((projection (⟨Real.tan, Real.sqrt, Real.pi⟩ : Libm ℝ)).mulVec ⟨x, y, -d, 1⟩).z
            ∧ ((projection (⟨Real.tan, Real.sqrt, Real.pi⟩ : Libm ℝ)).mulVec ⟨x, y, -d, 1⟩).z
              < ((projection (⟨Real.tan, Real.sqrt, Real.pi⟩ : Libm ℝ)).mulVec ⟨x, y, -d, 1⟩).w)
            ↔ (1 / 10 < d ∧ d < 522)))
      ∧ -((camera (⟨Real.tan, Real.sqrt, Real.pi⟩ : Libm ℝ)).mulVec ⟨x, y, 0, 1⟩).z = 512
      ∧ (main_zNear : ℝ)
          < -((camera (⟨Real.tan, Real.sqrt, Real.pi⟩ : Libm ℝ)).mulVec ⟨x, y, 0, 1⟩).z
      ∧ -((camera (⟨Real.tan, Real.sqrt, Real.pi⟩ : Libm ℝ)).mulVec ⟨x, y, 0, 1⟩).z
          < main_zFar (⟨Real.tan, Real.sqrt, Real.pi⟩ : Libm ℝ)
      ∧ -(vertexShader (projection (⟨Real.tan, Real.sqrt, Real.pi⟩ : Libm ℝ))
            (camera (⟨Real.tan, Real.sqrt, Real.pi⟩ : Libm ℝ)) Mat4.identity ⟨x, y, 0⟩).w
          < (vertexShader (projection (⟨Real.tan, Real.sqrt, Real.pi⟩ : Libm ℝ))
            (camera (⟨Real.tan, Real.sqrt, Real.pi⟩ : Libm ℝ)) Mat4.identity ⟨x, y, 0⟩).z
      ∧ (vertexShader (projection (⟨Real.tan, Real.sqrt, Real.pi⟩ : Libm ℝ))
            (camera (⟨Real.tan, Real.sqrt, Real.pi⟩ : Libm ℝ)) Mat4.identity ⟨x, y, 0⟩).z
          < (vertexShader (projection (⟨Real.tan, Real.sqrt, Real.pi⟩ : Libm ℝ))
            (camera (⟨Real.tan, Real.sqrt, Real.pi⟩ : Libm ℝ)) Mat4.identity ⟨x, y, 0⟩).w := by
  have hz : -((camera (⟨Real.tan, Real.sqrt, Real.pi⟩ : Libm ℝ)).mulVec ⟨x, y, 0, 1⟩).z
      = 512 := by
    simp only [camera_real, Mat4.mulVec, Vec4.add, Vec4.smul]
    norm_num
  have hfov : fov (⟨Real.tan, Real.sqrt, Real.pi⟩ : Libm ℝ) = Real.pi / 2 := by
    simp only [fov, radians]
    ring
  refine ⟨rfl, ?_, main_zFar_real, ?_, ?_, ?_, hz, ?_, ?_, ?_, ?_⟩
  · rw [main_zFar_real, camera_zFar_real]
    norm_num
  · simp only [projection, main_zFar_real, main_zNear, hfov, SCREEN_WIDTH_cast,
      SCREEN_HEIGHT_cast]
  · rw [projection_real]
    norm_num
  · intro d hd
    simp only [projection_real, Mat4.mulVec, Vec4.add, Vec4.smul]
    constructor
    · rintro ⟨h1, h2⟩
      constructor <;> linarith
    · rintro ⟨h1, h2⟩
      constructor <;> linarith
  · rw [hz]
    simp only [main_zNear]
    norm_num
  · rw [hz, main_zFar_real]
    norm_num
  · rw [vertexShader_plane]
    norm_num
  · rw [vertexShader_plane]
    norm_num

end CameraClaims

end Linefun
